import Mathlib

/-!
Verification of the CalculiX MPC-generation script (Fitting/constraint_eqs.py).

The script is a one-shot text transformer: it parses the node table of a
CalculiX .inp file (get_nodes_map), synthesizes duplicate nodes at the same
coordinates (gen_nodes), and formats boundary and equation records
(fix_base, constrain_dofs, MPC).

Embedding conventions:
- Python text is modelled as Lean String (a list of characters here); file
  contents are passed as the text itself, since file IO carries no logic.
- Python float values are modelled by PyFloat: a finite value, a signed
  infinity, or nan. The script performs no float arithmetic (only parse
  and re-print), so a finite value is held as the exact decimal rational
  its literal denotes. float() is modelled by pyFloatL with CPython's
  acceptance on ASCII text: whitespace stripping, PEP 515 underscore
  validation and removal, an optional sign, then inf, infinity or nan
  case-insensitively, or a decimal literal with optional fraction and
  exponent. The f-string rendering is fmtPyFloat: the exact decimal
  expansion (such as 2.5 or 3.0) for finite values, and inf, -inf or
  nan as Python str() prints the non-finite ones.
- The Python dict nodes_map is modelled as an association list in
  insertion order with in-place update on an existing key (dictInsert),
  matching dict insertion-order semantics.
- A Python function that can raise (ValueError from float(), unpacking a
  split of the wrong arity, KeyError from a missing dict key) is modelled
  as returning an Option, with none for the raised exception.
-/

namespace FittingEqs

/-- Whitespace characters removed by Python str.strip with no argument
(ASCII subset). -/
def isPyWs (c : Char) : Bool :=
  c = ' ' || c = '\t' || c = '\n' || c = '\r' || c = '\x0b' || c = '\x0c'

/-- Python line.strip(): drop whitespace from both ends. -/
def trimL (l : List Char) : List Char :=
  ((l.dropWhile isPyWs).reverse.dropWhile isPyWs).reverse

/-- pat is a prefix of l, by characters. -/
def prefixOfL : List Char → List Char → Bool
  | [], _ => true
  | _ :: _, [] => false
  | a :: as, b :: bs => a == b && prefixOfL as bs

/-- Python substring test: pat occurs contiguously in l (the operator
pat in line). -/
def infixOfL (pat : List Char) : List Char → Bool
  | [] => pat.isEmpty
  | c :: cs => prefixOfL pat (c :: cs) || infixOfL pat cs

/-- Helper for splitNlL: prepend a character to the first chunk. -/
def consHead (c : Char) : List (List Char) → List (List Char)
  | [] => [[c]]
  | l :: ls => (c :: l) :: ls

/-- Split a character list at every newline (chunks do not keep the
newline). -/
def splitNlL : List Char → List (List Char)
  | [] => [[]]
  | c :: cs => if c = '\n' then [] :: splitNlL cs else consHead c (splitNlL cs)

/-- The lines of a text, as Python f.readlines() produces them (one entry
per line, no entry for the empty tail after a final newline); the
newline terminators themselves are dropped, since the script strips
every line before use. -/
def linesOfL (l : List Char) : List (List Char) :=
  if (splitNlL l).getLast? = some [] then (splitNlL l).dropLast else splitNlL l

/-- The lines of a String. -/
def linesOf (s : String) : List String :=
  (linesOfL s.data).map String.mk

/-- Python line.split(", "): split at each non-overlapping occurrence of
comma-space, left to right. -/
def splitCS : List Char → List (List Char)
  | [] => [[]]
  | ',' :: ' ' :: cs => [] :: splitCS cs
  | c :: cs =>
    match splitCS cs with
    | [] => [[c]]
    | l :: ls => (c :: l) :: ls

/-- Numeric value of a list of decimal digit characters. -/
def natOfDigits (l : List Char) : Nat :=
  l.foldl (fun a c => a * 10 + (c.toNat - 48)) 0

/-- Nonempty and all decimal digits. -/
def allDigits (l : List Char) : Bool :=
  !l.isEmpty && l.all Char.isDigit

/-- Mantissa of a Python float literal: digits with an optional decimal
point, at least one digit overall. Returns the numerator and the number
of fractional digits. -/
def parseMantissa (l : List Char) : Option (Nat × Nat) :=
  match l.dropWhile (fun c => c != '.') with
  | [] => if allDigits l then some (natOfDigits l, 0) else none
  | _ :: fp =>
    if (l.takeWhile (fun c => c != '.')).all Char.isDigit && fp.all Char.isDigit
        && !((l.takeWhile (fun c => c != '.')).isEmpty && fp.isEmpty) then
      some (natOfDigits (l.takeWhile (fun c => c != '.')) * 10 ^ fp.length
              + natOfDigits fp, fp.length)
    else none

/-- Exponent of a Python float literal: optional sign, then digits. -/
def parseExp (l : List Char) : Option Int :=
  match l with
  | '+' :: ds => if allDigits ds then some ((natOfDigits ds : Nat) : Int) else none
  | '-' :: ds => if allDigits ds then some (-((natOfDigits ds : Nat) : Int)) else none
  | ds => if allDigits ds then some ((natOfDigits ds : Nat) : Int) else none

/-- A Python float value as the script moves it around: a finite value
(held as the exact decimal rational its literal denotes, see the
header), a signed infinity, or nan. -/
inductive PyFloat where
  | finite (q : Rat)
  | inf (neg : Bool)
  | nan
deriving DecidableEq, Repr

/-- PEP 515 as CPython checks it: every underscore must sit immediately
between two digits. Worker carrying the previous character. -/
def underscoresOkGo : Option Char → List Char → Bool
  | _, [] => true
  | prev, c :: cs =>
    if c = '_' then
      (match prev with
       | some p => p.isDigit
       | none => false) &&
      (match cs with
       | d :: _ => d.isDigit
       | [] => false) &&
      underscoresOkGo (some c) cs
    else underscoresOkGo (some c) cs

/-- All underscores of the string sit between digits. -/
def underscoresOk (l : List Char) : Bool := underscoresOkGo none l

/-- Case-insensitive comparison against a lowercase pattern, as CPython
matches the inf and nan spellings. -/
def lowerEq (l : List Char) (pat : List Char) : Bool :=
  l.map Char.toLower == pat

/-- float() after whitespace stripping and underscore removal: optional
sign, then inf, infinity or nan case-insensitively, or a decimal
literal (digits with optional decimal point, optional exponent). -/
def pyFloatStripped (t : List Char) : Option PyFloat :=
  let sb : Bool × List Char :=
    match t with
    | '+' :: r => (false, r)
    | '-' :: r => (true, r)
    | r => (false, r)
  if lowerEq sb.2 ['i', 'n', 'f'] || lowerEq sb.2 ['i', 'n', 'f', 'i', 'n', 'i', 't', 'y'] then
    some (.inf sb.1)
  else if lowerEq sb.2 ['n', 'a', 'n'] then
    some .nan
  else
    let sgn : Int := if sb.1 then -1 else 1
    match parseMantissa (sb.2.takeWhile (fun c => c != 'e' && c != 'E')) with
    | none => none
    | some ms =>
      match sb.2.dropWhile (fun c => c != 'e' && c != 'E') with
      | [] => some (.finite (mkRat (sgn * ms.1) (10 ^ ms.2)))
      | _ :: etl =>
        match parseExp etl with
        | none => none
        | some e =>
          some (.finite (mkRat (sgn * ms.1 * 10 ^ e.toNat) (10 ^ (ms.2 + (-e).toNat))))

/-- Python float(s) on ASCII text: strip surrounding whitespace, check
and remove PEP 515 underscores, then parse sign, inf, infinity, nan or
a decimal literal. Returns none exactly for the ValueError CPython
raises. -/
def pyFloatL (l : List Char) : Option PyFloat :=
  if underscoresOk (trimL l) then
    pyFloatStripped ((trimL l).filter (fun c => c != '_'))
  else none

/-- Point = namedtuple('Point', ['x', 'y', 'z']). -/
structure Point where
  x : PyFloat
  y : PyFloat
  z : PyFloat
deriving DecidableEq, Repr

/-- The nodes_map dict: node-id string to Point, in insertion order. -/
abbrev NodesMap := List (String × Point)

/-- Python dict lookup nodes_map[k]; none models the KeyError. -/
def dictFind? (m : NodesMap) (k : String) : Option Point :=
  match m with
  | [] => none
  | kv :: rest => if kv.1 = k then some kv.2 else dictFind? rest k

/-- Python dict assignment nodes_map[k] = v: update in place if the key
exists, otherwise append. -/
def dictInsert (m : NodesMap) (k : String) (v : Point) : NodesMap :=
  match m with
  | [] => [(k, v)]
  | kv :: rest => if kv.1 = k then (k, v) :: rest else kv :: dictInsert rest k v

/-- One record line of the node section:
node_id, x, y, z = line.split(', ') followed by the three float()
conversions. none models the ValueError raised by unpacking a split of
the wrong arity or by a failed float conversion. -/
def parseRecordL (l : List Char) : Option (String × Point) :=
  match splitCS l with
  | [idc, xs, ys, zs] =>
    match pyFloatL xs, pyFloatL ys, pyFloatL zs with
    | some x, some y, some z => some (String.mk idc, ⟨x, y, z⟩)
    | _, _, _ => none
  | _ => none

/-- The comment marker scanned for with the test "**" in line. -/
def starStar : List Char := ['*', '*']

/-- The node-section marker scanned for with the test "*Node" in line. -/
def starNode : List Char := ['*', 'N', 'o', 'd', 'e']

/-- The loop of get_nodes_map after the marker was found: break on a
comment line, otherwise parse the record into the map. -/
def scanRecords : List (List Char) → NodesMap → Option NodesMap
  | [], m => some m
  | l :: rest, m =>
    if infixOfL starStar (trimL l) then some m
    else
      match parseRecordL (trimL l) with
      | some kv => scanRecords rest (dictInsert m kv.1 kv.2)
      | none => none

/-- The loop of get_nodes_map before the marker was found: skip lines
until one contains "*Node". -/
def scanForNode : List (List Char) → Option NodesMap
  | [] => some []
  | l :: rest =>
    if infixOfL starNode (trimL l) then scanRecords rest []
    else scanForNode rest

/-- get_nodes_map: parse the node table out of the CalculiX file text.
The file's text stands in for the named file. -/
def get_nodes_map (text : String) : Option NodesMap :=
  scanForNode (linesOfL text.data)

/-- Fuel-driven worker for divCount. -/
def divCountGo (p : Nat) : Nat → Nat → Nat
  | 0, _ => 0
  | fuel + 1, n => if 2 ≤ p ∧ n ≠ 0 ∧ n % p = 0 then divCountGo p fuel (n / p) + 1 else 0

/-- Number of times p divides n. -/
def divCount (p n : Nat) : Nat := divCountGo p n n

/-- Decimal digits of n, left-padded with zeros to at least k+1 digits. -/
def padDigits (n k : Nat) : List Char :=
  if (Nat.toDigits 10 n).length < k + 1 then
    List.replicate (k + 1 - (Nat.toDigits 10 n).length) '0' ++ Nat.toDigits 10 n
  else Nat.toDigits 10 n

/-- The f-string rendering of a float value, modelled on the exact
rational: the decimal expansion with at least one integer and one
fractional digit (3.0, 2.5, 0.1, -1.25), as Python str() prints such
floats. Every value the script parses has a denominator dividing a
power of ten; other rationals take an unreachable fallback form. -/
def fmtRat (q : Rat) : String :=
  let sgn : List Char := if q.num < 0 then ['-'] else []
  let k := max (divCount 2 q.den) (divCount 5 q.den)
  if q.den ∣ 10 ^ k then
    let ds := padDigits (q.num.natAbs * 10 ^ k / q.den) k
    String.mk (sgn ++ ds.take (ds.length - k) ++ '.' ::
      (if k = 0 then ['0'] else ds.drop (ds.length - k)))
  else
    String.mk (sgn ++ Nat.toDigits 10 q.num.natAbs ++ '/' :: Nat.toDigits 10 q.den)

/-- The f-string rendering of a float value: the exact decimal
expansion for finite values, and inf, -inf or nan as Python str()
prints the non-finite ones. -/
def fmtPyFloat : PyFloat → String
  | .finite q => fmtRat q
  | .inf neg => if neg then "-inf" else "inf"
  | .nan => "nan"

/-- The content of one emitted node record, without its newline:
"{first_node_id+i}, {x}, {y}, {z}". -/
def recordStr (id : Nat) (p : Point) : String :=
  toString id ++ ", " ++ fmtPyFloat p.x ++ ", " ++ fmtPyFloat p.y ++ ", " ++ fmtPyFloat p.z

/-- One emitted node record line of gen_nodes. -/
def nodeLine (id : Nat) (p : Point) : String := recordStr id p ++ "\n"

/-- The loop of gen_nodes: for i, node_id in enumerate(query_nodes),
look up str(node_id), allocate first_node_id + i, and append the record
line; none models the propagated KeyError. -/
def genLoop (m : NodesMap) (first : Nat) : Nat → List Nat → Option (String × List Nat)
  | _, [] => some ("", [])
  | i, q :: rest =>
    match dictFind? m (toString q) with
    | none => none
    | some p =>
      match genLoop m first (i + 1) rest with
      | none => none
      | some si => some (nodeLine (first + i) p ++ si.1, (first + i) :: si.2)

/-- gen_nodes: create duplicate nodes with ids starting at first_node_id
at the positions of the query nodes, returning the node-block text and
the list of new ids. The file's text stands in for the named file. -/
def gen_nodes (first_node_id : Nat) (query_nodes : List Nat) (text : String) :
    Option (String × List Nat) :=
  match get_nodes_map text with
  | none => none
  | some m =>
    match genLoop m first_node_id 0 query_nodes with
    | none => none
    | some si => some ("** MY NODES\n*Node\n" ++ si.1, si.2)

/-- The equation line of one MPC block:
"{node_id}, {3}, -1, {base_node_id}, {3}, 1, {mv_node_id}, {3}, 1". -/
def eqLineStr (n b mv : Nat) : String :=
  toString n ++ ", 3, -1, " ++ toString b ++ ", 3, 1, " ++ toString mv ++ ", 3, 1"

/-- One element of the equations list built by MPC. -/
def mpcBlock (n b mv : Nat) : String :=
  "** MY EQUATIONS\n*EQUATION\n" ++ "3\n" ++ eqLineStr n b mv ++ "\n"

/-- MPC: one equation block per positional triple of the three lists
(Python zip stops at the shortest list), concatenated. -/
def MPC (nodes base_nodes movable_nodes : List Nat) : String :=
  String.join ((nodes.zip (base_nodes.zip movable_nodes)).map
    (fun t => mpcBlock t.1 t.2.1 t.2.2))

/-- constrain_dofs: one "{node_id}, 1, 2" record per node under the
boundary header. -/
def constrain_dofs (nodes : List Nat) : String :=
  "** MY BOUNDARIES\n*BOUNDARY\n" ++
    String.join (nodes.map (fun id => toString id ++ ", 1, 2\n"))

/-- fix_base: one "{node_id}, 1, 3, 0" record per node under the
boundary header. -/
def fix_base (nodes : List Nat) : String :=
  "** Name: MY BOUNDARIES\n*BOUNDARY\n" ++
    String.join (nodes.map (fun id => toString id ++ ", 1, 3, 0\n"))

/-- Join line contents into a text with one newline after each line. -/
def joinNl (ls : List (List Char)) : List Char :=
  (ls.map (fun l => l ++ ['\n'])).flatten

/-- The table's point for a node id, under the hypothesis that the
lookup succeeds. -/
def lookupD (m : NodesMap) (q : Nat) : Point :=
  (dictFind? m (toString q)).getD ⟨.finite 0, .finite 0, .finite 0⟩

/-- The four line contents of one MPC block. -/
def mpcBlockLines (n b mv : Nat) : List (List Char) :=
  ["** MY EQUATIONS".data, "*EQUATION".data, ['3'], (eqLineStr n b mv).data]

/-- Parse a list of record lines in order; none as soon as one fails.
Statement-side companion of scanRecords. -/
def parseAll : List (List Char) → Option (List (String × Point))
  | [] => some []
  | l :: rest =>
    match parseRecordL (trimL l) with
    | none => none
    | some kv =>
      match parseAll rest with
      | none => none
      | some kvs => some (kv :: kvs)

end FittingEqs

namespace FittingEqs

theorem digitChar_ne_nl (n : Nat) : Nat.digitChar n ≠ '\n' := by
  rcases Nat.lt_or_ge n 16 with h | h
  · interval_cases n <;> decide
  · have h0 : ∀ k, k < 16 → n ≠ k := by omega
    unfold Nat.digitChar
    rw [if_neg (h0 0 (by omega)), if_neg (h0 1 (by omega)), if_neg (h0 2 (by omega)),
      if_neg (h0 3 (by omega)), if_neg (h0 4 (by omega)), if_neg (h0 5 (by omega)),
      if_neg (h0 6 (by omega)), if_neg (h0 7 (by omega)), if_neg (h0 8 (by omega)),
      if_neg (h0 9 (by omega)), if_neg (h0 10 (by omega)), if_neg (h0 11 (by omega)),
      if_neg (h0 12 (by omega)), if_neg (h0 13 (by omega)), if_neg (h0 14 (by omega)),
      if_neg (h0 15 (by omega))]
    decide

theorem lit_nlFree (l : List Char) (hl : l.all (fun d => d != '\n') = true) :
    ∀ c ∈ l, c ≠ '\n' := by
  intro c hc
  simpa using List.all_eq_true.mp hl c hc

theorem nlFree_append {l1 l2 : List Char} (h1 : ∀ c ∈ l1, c ≠ '\n')
    (h2 : ∀ c ∈ l2, c ≠ '\n') : ∀ c ∈ l1 ++ l2, c ≠ '\n' := by
  intro c hc
  rcases List.mem_append.mp hc with h | h
  · exact h1 c h
  · exact h2 c h

theorem toDigitsCore_ne_nl :
    ∀ (fuel n : Nat) (ds : List Char), (∀ c ∈ ds, c ≠ '\n') →
      ∀ c ∈ Nat.toDigitsCore 10 fuel n ds, c ≠ '\n' := by
  intro fuel
  induction fuel with
  | zero => intro n ds h c hc; exact h c hc
  | succ fuel ih =>
    intro n ds h c hc
    rw [Nat.toDigitsCore] at hc
    by_cases hz : n / 10 = 0
    · simp only [hz, if_pos rfl] at hc
      rcases List.mem_cons.mp hc with h1 | h1
      · exact h1 ▸ digitChar_ne_nl _
      · exact h c h1
    · simp only [if_neg hz] at hc
      refine ih (n / 10) (Nat.digitChar (n % 10) :: ds) ?_ c hc
      intro d hd
      rcases List.mem_cons.mp hd with h1 | h1
      · exact h1 ▸ digitChar_ne_nl _
      · exact h d h1

theorem toDigits_ne_nl (n : Nat) : ∀ c ∈ Nat.toDigits 10 n, c ≠ '\n' :=
  toDigitsCore_ne_nl (n + 1) n [] (by simp)

theorem toString_nat_data (n : Nat) : (toString n).data = Nat.toDigits 10 n := rfl

theorem toString_nat_ne_nl (n : Nat) : ∀ c ∈ (toString n).data, c ≠ '\n' := by
  rw [toString_nat_data]; exact toDigits_ne_nl n

theorem padDigits_ne_nl (n k : Nat) : ∀ c ∈ padDigits n k, c ≠ '\n' := by
  unfold padDigits
  split
  · refine nlFree_append ?_ (toDigits_ne_nl n)
    intro c hc
    have := List.eq_of_mem_replicate hc
    subst this; decide
  · exact toDigits_ne_nl n

theorem fmtRat_ne_nl (q : Rat) : ∀ c ∈ (fmtRat q).data, c ≠ '\n' := by
  unfold fmtRat
  dsimp only
  split
  · refine nlFree_append (nlFree_append ?_ ?_) ?_
    · split
      · exact lit_nlFree _ (by decide)
      · exact lit_nlFree _ (by decide)
    · intro c hc
      exact padDigits_ne_nl _ _ c (List.take_subset _ _ hc)
    · intro c hc
      rcases List.mem_cons.mp hc with h1 | h1
      · subst h1; decide
      · revert h1
        split
        · exact lit_nlFree _ (by decide) c
        · intro h1
          exact padDigits_ne_nl _ _ c (List.drop_subset _ _ h1)
  · refine nlFree_append (nlFree_append ?_ (toDigits_ne_nl _)) ?_
    · split
      · exact lit_nlFree _ (by decide)
      · exact lit_nlFree _ (by decide)
    · intro c hc
      rcases List.mem_cons.mp hc with h1 | h1
      · subst h1; decide
      · exact toDigits_ne_nl _ c h1

theorem fmtPyFloat_ne_nl (p : PyFloat) : ∀ c ∈ (fmtPyFloat p).data, c ≠ '\n' := by
  cases p with
  | finite q => exact fmtRat_ne_nl q
  | inf neg => cases neg <;> decide
  | nan => decide

theorem recordStr_ne_nl (id : Nat) (p : Point) :
    ∀ c ∈ (recordStr id p).data, c ≠ '\n' := by
  unfold recordStr
  simp only [String.data_append]
  exact nlFree_append (nlFree_append (nlFree_append (nlFree_append (nlFree_append
    (nlFree_append (toString_nat_ne_nl id) (lit_nlFree _ (by decide))) (fmtPyFloat_ne_nl _))
    (lit_nlFree _ (by decide))) (fmtPyFloat_ne_nl _)) (lit_nlFree _ (by decide)))
    (fmtPyFloat_ne_nl _)

theorem eqLineStr_ne_nl (n b mv : Nat) : ∀ c ∈ (eqLineStr n b mv).data, c ≠ '\n' := by
  unfold eqLineStr
  simp only [String.data_append]
  exact nlFree_append (nlFree_append (nlFree_append (nlFree_append
    (nlFree_append (toString_nat_ne_nl n) (lit_nlFree _ (by decide)))
    (toString_nat_ne_nl b)) (lit_nlFree _ (by decide)))
    (toString_nat_ne_nl mv)) (lit_nlFree _ (by decide))

theorem splitNlL_append_nl (l : List Char) (h : ∀ c ∈ l, c ≠ '\n') (rest : List Char) :
    splitNlL (l ++ '\n' :: rest) = l :: splitNlL rest := by
  induction l with
  | nil => simp [splitNlL]
  | cons c cs ih =>
    have hc : c ≠ '\n' := h c (List.mem_cons_self c cs)
    have ihh := ih (fun d hd => h d (List.mem_cons_of_mem c hd))
    show splitNlL (c :: (cs ++ '\n' :: rest)) = (c :: cs) :: splitNlL rest
    rw [splitNlL, if_neg hc, ihh]
    rfl

theorem joinNl_cons (l : List Char) (ls : List (List Char)) :
    joinNl (l :: ls) = l ++ '\n' :: joinNl ls := by
  simp [joinNl]

theorem splitNlL_joinNl (ls : List (List Char)) (h : ∀ l ∈ ls, ∀ c ∈ l, c ≠ '\n')
    (rest : List Char) : splitNlL (joinNl ls ++ rest) = ls ++ splitNlL rest := by
  induction ls with
  | nil => simp [joinNl]
  | cons l ls ih =>
    have h1 : ∀ c ∈ l, c ≠ '\n' := h l (List.mem_cons_self l ls)
    have h2 := ih (fun m hm => h m (List.mem_cons_of_mem l hm))
    rw [joinNl_cons, List.append_assoc, List.cons_append, splitNlL_append_nl l h1, h2]
    rfl

theorem linesOfL_joinNl (ls : List (List Char)) (h : ∀ l ∈ ls, ∀ c ∈ l, c ≠ '\n') :
    linesOfL (joinNl ls) = ls := by
  have hs : splitNlL (joinNl ls) = ls ++ [[]] := by
    have := splitNlL_joinNl ls h []
    simpa [splitNlL] using this
  unfold linesOfL
  rw [hs, List.getLast?_concat, List.dropLast_concat]
  simp

theorem linesOf_of_data (s : String) (ls : List (List Char))
    (hd : s.data = joinNl ls) (h : ∀ l ∈ ls, ∀ c ∈ l, c ≠ '\n') :
    linesOf s = ls.map String.mk := by
  unfold linesOf
  rw [hd, linesOfL_joinNl ls h]

theorem foldl_append_data (l : List String) :
    ∀ a : String,
      (l.foldl (fun r s => r ++ s) a).data = a.data ++ (l.map String.data).flatten := by
  induction l with
  | nil => intro a; simp
  | cons s l ih =>
    intro a
    simp only [List.foldl_cons, ih, String.data_append, List.map_cons, List.flatten_cons,
      List.append_assoc]

theorem join_data (l : List String) :
    (String.join l).data = (l.map String.data).flatten := by
  have := foldl_append_data l ""
  simpa [String.join] using this

theorem join_cons (s : String) (l : List String) :
    String.join (s :: l) = s ++ String.join l := by
  apply String.ext
  simp [join_data, String.data_append]

theorem joinNl_append (l1 l2 : List (List Char)) :
    joinNl (l1 ++ l2) = joinNl l1 ++ joinNl l2 := by
  simp [joinNl]

theorem join_data_blocks {α : Type} (f : α → String) (g : α → List (List Char))
    (hf : ∀ t, (f t).data = joinNl (g t)) (ts : List α) :
    (String.join (ts.map f)).data = joinNl ((ts.map g).flatten) := by
  induction ts with
  | nil => simp [join_data, joinNl]
  | cons t ts ih =>
    rw [List.map_cons, join_cons, String.data_append, hf t, ih, List.map_cons,
      List.flatten_cons, joinNl_append]

/-! ### Behavior of the node-table scan -/

theorem scanForNode_no_marker (ls : List (List Char))
    (h : ∀ l ∈ ls, infixOfL starNode (trimL l) = false) :
    scanForNode ls = some [] := by
  induction ls with
  | nil => rfl
  | cons l ls ih =>
    have h1 := h l (List.mem_cons_self l ls)
    have h2 := ih (fun m hm => h m (List.mem_cons_of_mem l hm))
    simp [scanForNode, h1, h2]

theorem scanForNode_skip (pre ls : List (List Char))
    (h : ∀ l ∈ pre, infixOfL starNode (trimL l) = false) :
    scanForNode (pre ++ ls) = scanForNode ls := by
  induction pre with
  | nil => rfl
  | cons l pre ih =>
    have h1 := h l (List.mem_cons_self l pre)
    have h2 := ih (fun m hm => h m (List.mem_cons_of_mem l hm))
    simp [scanForNode, h1, h2]

theorem scanForNode_marker (l : List Char) (ls : List (List Char))
    (h : infixOfL starNode (trimL l) = true) :
    scanForNode (l :: ls) = scanRecords ls [] := by
  simp [scanForNode, h]

theorem scanRecords_until_bad (mid : List (List Char)) (bad : List Char)
    (rest : List (List Char))
    (hmid : ∀ l ∈ mid,
      infixOfL starStar (trimL l) = false ∧ (parseRecordL (trimL l)).isSome = true)
    (hbad1 : infixOfL starStar (trimL bad) = false)
    (hbad2 : parseRecordL (trimL bad) = none) :
    ∀ m : NodesMap, scanRecords (mid ++ bad :: rest) m = none := by
  induction mid with
  | nil => intro m; simp [scanRecords, hbad1, hbad2]
  | cons l mid ih =>
    intro m
    obtain ⟨h1, h2⟩ := hmid l (List.mem_cons_self l mid)
    obtain ⟨kv, hkv⟩ := Option.isSome_iff_exists.mp h2
    have h3 := ih (fun x hx => hmid x (List.mem_cons_of_mem l hx))
    simp [scanRecords, h1, hkv, h3]

theorem dictInsert_notMem (m : NodesMap) (k : String) (v : Point)
    (h : k ∉ m.map Prod.fst) : dictInsert m k v = m ++ [(k, v)] := by
  induction m with
  | nil => rfl
  | cons kv rest ih =>
    simp only [List.map_cons, List.mem_cons, not_or] at h
    have hne : ¬ kv.1 = k := fun he => h.1 he.symm
    simp [dictInsert, hne, ih h.2]

theorem scanRecords_build (recs : List (List Char)) :
    ∀ (rows : List (String × Point)) (m : NodesMap) (term : List Char)
      (rest : List (List Char)),
      parseAll recs = some rows →
      (∀ l ∈ recs, infixOfL starStar (trimL l) = false) →
      infixOfL starStar (trimL term) = true →
      (∀ k ∈ rows.map Prod.fst, k ∉ m.map Prod.fst) →
      (rows.map Prod.fst).Nodup →
      scanRecords (recs ++ term :: rest) m = some (m ++ rows) := by
  induction recs with
  | nil =>
    intro rows m term rest hp _ hterm _ _
    have hr : rows = [] := by
      simp only [parseAll] at hp
      exact (Option.some_inj.mp hp).symm
    subst hr
    simp [scanRecords, hterm]
  | cons l recs ih =>
    intro rows m term rest hp hstar hterm hdisj hnodup
    rcases hkv : parseRecordL (trimL l) with _ | kv
    · rw [parseAll, hkv] at hp; cases hp
    rcases hrest : parseAll recs with _ | kvs
    · rw [parseAll, hkv, hrest] at hp; cases hp
    rw [parseAll, hkv, hrest] at hp
    have hrows : rows = kv :: kvs := (Option.some_inj.mp hp).symm
    subst hrows
    have hstar1 := hstar l (List.mem_cons_self l recs)
    have hmemm : kv.1 ∉ m.map Prod.fst :=
      hdisj kv.1 (by simp)
    have hkeys : (List.map Prod.fst (m ++ [(kv.1, kv.2)])) = m.map Prod.fst ++ [kv.1] := by
      simp
    have hnodup' : (kvs.map Prod.fst).Nodup := (List.nodup_cons.mp hnodup).2
    have hne : kv.1 ∉ kvs.map Prod.fst := (List.nodup_cons.mp hnodup).1
    have hdisj' : ∀ k ∈ kvs.map Prod.fst, k ∉ (m ++ [(kv.1, kv.2)]).map Prod.fst := by
      intro k hk
      rw [hkeys]
      simp only [List.mem_append, List.mem_singleton, not_or]
      constructor
      · exact hdisj k (by simp only [List.map_cons, List.mem_cons]; exact Or.inr hk)
      · intro he; subst he; exact hne hk
    have hstep := ih kvs (m ++ [(kv.1, kv.2)]) term rest hrest
      (fun x hx => hstar x (List.mem_cons_of_mem l hx)) hterm hdisj' hnodup'
    calc scanRecords ((l :: recs) ++ term :: rest) m
        = scanRecords (recs ++ term :: rest) (dictInsert m kv.1 kv.2) := by
          simp [scanRecords, hstar1, hkv]
      _ = scanRecords (recs ++ term :: rest) (m ++ [(kv.1, kv.2)]) := by
          rw [dictInsert_notMem m kv.1 kv.2 hmemm]
      _ = some ((m ++ [(kv.1, kv.2)]) ++ kvs) := hstep
      _ = some (m ++ kv :: kvs) := by simp

/-! ### Behavior of the node-synthesis loop -/

theorem range_map_succ_shift (first i n : Nat) :
    (List.range (n + 1)).map (fun j => first + i + j)
      = (first + i) :: (List.range n).map (fun j => first + (i + 1) + j) := by
  rw [List.range_succ_eq_map, List.map_cons, List.map_map]
  congr 1
  apply List.map_congr_left
  intro j _
  show first + i + Nat.succ j = first + (i + 1) + j
  omega

theorem range_map_succ_shift_rec (m : NodesMap) (q : Nat) (rest : List Nat) (first i : Nat) :
    (List.range (rest.length + 1)).map
        (fun j => (recordStr (first + i + j) (lookupD m ((q :: rest).getD j 0))).data)
      = (recordStr (first + i) (lookupD m q)).data ::
        (List.range rest.length).map
          (fun j => (recordStr (first + (i + 1) + j) (lookupD m (rest.getD j 0))).data) := by
  rw [List.range_succ_eq_map, List.map_cons, List.map_map]
  congr 1
  apply List.map_congr_left
  intro j _
  show (recordStr (first + i + Nat.succ j) (lookupD m (rest.getD j 0))).data
    = (recordStr (first + (i + 1) + j) (lookupD m (rest.getD j 0))).data
  have h1 : first + i + Nat.succ j = first + (i + 1) + j := by omega
  rw [h1]

theorem nodeLine_data (id : Nat) (p : Point) :
    (nodeLine id p).data = (recordStr id p).data ++ ['\n'] := by
  unfold nodeLine
  rw [String.data_append]

theorem genLoop_spec (m : NodesMap) (query : List Nat) :
    ∀ (first i : Nat), (∀ q ∈ query, (dictFind? m (toString q)).isSome = true) →
      genLoop m first i query =
        some (String.mk (joinNl ((List.range query.length).map
                (fun j => (recordStr (first + i + j) (lookupD m (query.getD j 0))).data))),
              (List.range query.length).map (fun j => first + i + j)) := by
  induction query with
  | nil => intro first i _; rfl
  | cons q rest ih =>
    intro first i h
    obtain ⟨p, hp⟩ := Option.isSome_iff_exists.mp (h q (List.mem_cons_self q rest))
    have ihh := ih first (i + 1) (fun x hx => h x (List.mem_cons_of_mem q hx))
    have hlk : lookupD m q = p := by unfold lookupD; rw [hp]; rfl
    rw [show (q :: rest).length = rest.length + 1 from rfl, range_map_succ_shift,
      range_map_succ_shift_rec, hlk]
    simp only [genLoop, hp, ihh]
    simp only [Option.some_inj, Prod.mk.injEq]
    refine ⟨?_, trivial⟩
    apply String.ext
    rw [String.data_append, joinNl_cons, nodeLine_data]
    simp [List.append_assoc]

theorem genLoop_ids (m : NodesMap) (query : List Nat) :
    ∀ (first i : Nat) (s : String) (ids : List Nat),
      genLoop m first i query = some (s, ids) →
      ids = (List.range query.length).map (fun j => first + i + j) := by
  induction query with
  | nil =>
    intro first i s ids h
    have h2 : ([] : List Nat) = ids := congrArg Prod.snd (Option.some_inj.mp h)
    simp [h2.symm]
  | cons q rest ih =>
    intro first i s ids h
    rcases hp : dictFind? m (toString q) with _ | p
    · simp only [genLoop, hp] at h
      exact Option.noConfusion h
    · rcases hg : genLoop m first (i + 1) rest with _ | si
      · simp only [genLoop, hp, hg] at h
        exact Option.noConfusion h
      · simp only [genLoop, hp, hg, Option.some_inj] at h
        have hids : (first + i) :: si.2 = ids := congrArg Prod.snd h
        rw [show (q :: rest).length = rest.length + 1 from rfl, range_map_succ_shift,
          ← ih first (i + 1) si.1 si.2 hg, hids]

theorem genLoop_missing (m : NodesMap) (query : List Nat) :
    ∀ q : Nat, q ∈ query → dictFind? m (toString q) = none →
      ∀ (first i : Nat), genLoop m first i query = none := by
  induction query with
  | nil => intro q hq; cases hq
  | cons a rest ih =>
    intro q hq hmiss first i
    rcases hp : dictFind? m (toString a) with _ | p
    · simp [genLoop, hp]
    · have hqr : q ∈ rest := by
        rcases List.mem_cons.mp hq with h1 | h1
        · subst h1; rw [hp] at hmiss; cases hmiss
        · exact h1
      simp [genLoop, hp, ih q hqr hmiss first (i + 1)]

/-! ### Line structure of the emitted texts -/

theorem flatten_singletons {α β : Type} (h : α → β) (l : List α) :
    (l.map (fun x => [h x])).flatten = l.map h := by
  induction l with
  | nil => rfl
  | cons x l ih => simp [ih]

theorem mpcBlock_data (n b mv : Nat) :
    (mpcBlock n b mv).data = joinNl (mpcBlockLines n b mv) := by
  have h1 : ("** MY EQUATIONS\n*EQUATION\n" : String).data
      = "** MY EQUATIONS".data ++ '\n' :: "*EQUATION".data ++ ['\n'] := by decide
  have h2 : ("3\n" : String).data = ['3', '\n'] := by decide
  have h3 : ("\n" : String).data = ['\n'] := by decide
  unfold mpcBlock mpcBlockLines joinNl
  simp only [List.map_cons, List.map_nil, List.flatten_cons, List.flatten_nil,
    List.append_nil, String.data_append, h1, h2, h3, List.append_assoc, List.cons_append,
    List.nil_append]

theorem MPC_linesOf (ns bs ms : List Nat) :
    linesOf (MPC ns bs ms) =
      ((ns.zip (bs.zip ms)).map
        (fun t => ["** MY EQUATIONS", "*EQUATION", "3", eqLineStr t.1 t.2.1 t.2.2])).flatten := by
  have hdata : (MPC ns bs ms).data =
      joinNl (((ns.zip (bs.zip ms)).map (fun t => mpcBlockLines t.1 t.2.1 t.2.2)).flatten) := by
    unfold MPC
    exact @join_data_blocks (Nat × (Nat × Nat)) (fun t => mpcBlock t.1 t.2.1 t.2.2)
      (fun t => mpcBlockLines t.1 t.2.1 t.2.2)
      (fun t => mpcBlock_data t.1 t.2.1 t.2.2) (ns.zip (bs.zip ms))
  have hnl : ∀ l ∈ ((ns.zip (bs.zip ms)).map (fun t => mpcBlockLines t.1 t.2.1 t.2.2)).flatten,
      ∀ c ∈ l, c ≠ '\n' := by
    intro l hl
    rcases List.mem_flatten.mp hl with ⟨b, hb, hlb⟩
    rcases List.mem_map.mp hb with ⟨t, _, hbt⟩
    subst hbt
    simp only [mpcBlockLines, List.mem_cons, List.not_mem_nil, or_false] at hlb
    rcases hlb with h | h | h | h
    · subst h; exact lit_nlFree _ (by decide)
    · subst h; exact lit_nlFree _ (by decide)
    · subst h; exact lit_nlFree _ (by decide)
    · subst h; exact eqLineStr_ne_nl _ _ _
  rw [linesOf_of_data _ _ hdata hnl, List.map_flatten, List.map_map]
  congr 1

theorem boundary_record_data (id : Nat) (tl tlnl : String)
    (htl : tlnl.data = tl.data ++ ['\n']) :
    (toString id ++ tlnl).data = joinNl [(toString id ++ tl).data] := by
  simp only [joinNl, List.map_cons, List.map_nil, List.flatten_cons, List.flatten_nil,
    List.append_nil, String.data_append, htl, List.append_assoc]

theorem fix_base_data (ns : List Nat) :
    (fix_base ns).data =
      joinNl (["** Name: MY BOUNDARIES".data, "*BOUNDARY".data]
        ++ ns.map (fun id => (toString id ++ ", 1, 3, 0").data)) := by
  have hhdr : ("** Name: MY BOUNDARIES\n*BOUNDARY\n" : String).data
      = joinNl ["** Name: MY BOUNDARIES".data, "*BOUNDARY".data] := by decide
  have hrec : (", 1, 3, 0\n" : String).data = (", 1, 3, 0" : String).data ++ ['\n'] := by
    decide
  have hmain := join_data_blocks (fun id => toString id ++ ", 1, 3, 0\n")
    (fun id => [(toString id ++ ", 1, 3, 0").data])
    (fun id => boundary_record_data id ", 1, 3, 0" ", 1, 3, 0\n" hrec) ns
  unfold fix_base
  rw [String.data_append, hhdr, hmain, flatten_singletons, joinNl_append]

theorem constrain_dofs_data (ns : List Nat) :
    (constrain_dofs ns).data =
      joinNl (["** MY BOUNDARIES".data, "*BOUNDARY".data]
        ++ ns.map (fun id => (toString id ++ ", 1, 2").data)) := by
  have hhdr : ("** MY BOUNDARIES\n*BOUNDARY\n" : String).data
      = joinNl ["** MY BOUNDARIES".data, "*BOUNDARY".data] := by decide
  have hrec : (", 1, 2\n" : String).data = (", 1, 2" : String).data ++ ['\n'] := by
    decide
  have hmain := join_data_blocks (fun id => toString id ++ ", 1, 2\n")
    (fun id => [(toString id ++ ", 1, 2").data])
    (fun id => boundary_record_data id ", 1, 2" ", 1, 2\n" hrec) ns
  unfold constrain_dofs
  rw [String.data_append, hhdr, hmain, flatten_singletons, joinNl_append]

theorem boundary_line_nlFree (id : Nat) (tl : String)
    (h : ∀ c ∈ tl.data, c ≠ '\n') : ∀ c ∈ (toString id ++ tl).data, c ≠ '\n' := by
  rw [String.data_append]
  exact nlFree_append (toString_nat_ne_nl id) h

theorem fix_base_linesOf (ns : List Nat) :
    linesOf (fix_base ns)
      = "** Name: MY BOUNDARIES" :: "*BOUNDARY"
          :: ns.map (fun id => toString id ++ ", 1, 3, 0") := by
  have hnl : ∀ l ∈ (["** Name: MY BOUNDARIES".data, "*BOUNDARY".data]
      ++ ns.map (fun id => (toString id ++ ", 1, 3, 0").data)), ∀ c ∈ l, c ≠ '\n' := by
    intro l hl
    rcases List.mem_append.mp hl with h | h
    · simp only [List.mem_cons, List.not_mem_nil, or_false] at h
      rcases h with h | h
      · subst h; exact lit_nlFree _ (by decide)
      · subst h; exact lit_nlFree _ (by decide)
    · rcases List.mem_map.mp h with ⟨id, _, hid⟩
      subst hid
      exact boundary_line_nlFree id ", 1, 3, 0" (lit_nlFree _ (by decide))
  rw [linesOf_of_data _ _ (fix_base_data ns) hnl]
  simp only [List.map_append, List.map_cons, List.map_nil, List.map_map]
  rfl

theorem constrain_dofs_linesOf (ns : List Nat) :
    linesOf (constrain_dofs ns)
      = "** MY BOUNDARIES" :: "*BOUNDARY" :: ns.map (fun id => toString id ++ ", 1, 2") := by
  have hnl : ∀ l ∈ (["** MY BOUNDARIES".data, "*BOUNDARY".data]
      ++ ns.map (fun id => (toString id ++ ", 1, 2").data)), ∀ c ∈ l, c ≠ '\n' := by
    intro l hl
    rcases List.mem_append.mp hl with h | h
    · simp only [List.mem_cons, List.not_mem_nil, or_false] at h
      rcases h with h | h
      · subst h; exact lit_nlFree _ (by decide)
      · subst h; exact lit_nlFree _ (by decide)
    · rcases List.mem_map.mp h with ⟨id, _, hid⟩
      subst hid
      exact boundary_line_nlFree id ", 1, 2" (lit_nlFree _ (by decide))
  rw [linesOf_of_data _ _ (constrain_dofs_data ns) hnl]
  simp only [List.map_append, List.map_cons, List.map_nil, List.map_map]
  rfl

theorem flatten_blocks4_getElem (blocks : List (List String))
    (h4 : ∀ b ∈ blocks, b.length = 4) :
    ∀ (i j : Nat), j < 4 → blocks.flatten[4 * i + j]? = blocks[i]?.bind (fun b => b[j]?) := by
  induction blocks with
  | nil => intro i j hj; simp
  | cons b blocks ih =>
    intro i j hj
    have hb : b.length = 4 := h4 b (List.mem_cons_self b blocks)
    cases i with
    | zero =>
      rw [List.flatten_cons]
      have h0 : 4 * 0 + j = j := by omega
      rw [h0, List.getElem?_append, if_pos (by omega)]
      simp
    | succ i =>
      rw [List.flatten_cons, List.getElem?_append_right (by omega)]
      have h1 : 4 * (i + 1) + j - b.length = 4 * i + j := by omega
      rw [h1, ih (fun x hx => h4 x (List.mem_cons_of_mem b hx)) i j hj]
      simp

theorem parseAll_length (recs : List (List Char)) :
    ∀ rows : List (String × Point), parseAll recs = some rows →
      rows.length = recs.length := by
  induction recs with
  | nil =>
    intro rows h
    simp only [parseAll, Option.some_inj] at h
    rw [← h]
    rfl
  | cons l recs ih =>
    intro rows h
    rcases hkv : parseRecordL (trimL l) with _ | kv
    · rw [parseAll, hkv] at h; exact Option.noConfusion h
    rcases hrest : parseAll recs with _ | kvs
    · rw [parseAll, hkv, hrest] at h; exact Option.noConfusion h
    rw [parseAll, hkv, hrest] at h
    rw [← Option.some_inj.mp h]
    simp [ih kvs hrest]

/-! ### The claims -/

/-- C1: for every starting identifier and every query-node list whose
identifiers are all present in the extracted node table, gen_nodes
returns the identifiers first, first+1, ..., first+k-1 in order, and the
emitted node-block text consists of the two header lines followed by,
at position j, a record line rendering identifier first+j with the
coordinates of the j-th query node as found in the table. -/
theorem gen_nodes_sequential_ids (first : Nat) (query : List Nat) (text : String)
    (m : NodesMap) (hm : get_nodes_map text = some m)
    (hq : ∀ q ∈ query, (dictFind? m (toString q)).isSome = true) :
    ∃ s ids, gen_nodes first query text = some (s, ids) ∧
      ids = (List.range query.length).map (fun j => first + j) ∧
      linesOf s = "** MY NODES" :: "*Node" ::
        (List.range query.length).map
          (fun j => recordStr (first + j) (lookupD m (query.getD j 0))) ∧
      ∀ j, j < query.length →
        (linesOf s)[2 + j]? =
          some (recordStr (first + j) (lookupD m (query.getD j 0))) := by
  have hloop := genLoop_spec m query first 0 hq
  have hadd : ∀ j : Nat, first + 0 + j = first + j := fun j => by omega
  have hlines : linesOf ("** MY NODES\n*Node\n" ++ String.mk (joinNl
      ((List.range query.length).map
        (fun j => (recordStr (first + 0 + j) (lookupD m (query.getD j 0))).data))))
      = "** MY NODES" :: "*Node" ::
        (List.range query.length).map
          (fun j => recordStr (first + j) (lookupD m (query.getD j 0))) := by
    have hdata : ("** MY NODES\n*Node\n" ++ String.mk (joinNl
        ((List.range query.length).map
          (fun j => (recordStr (first + 0 + j) (lookupD m (query.getD j 0))).data)))).data
        = joinNl (["** MY NODES".data, "*Node".data] ++
            (List.range query.length).map
              (fun j => (recordStr (first + 0 + j) (lookupD m (query.getD j 0))).data)) := by
      rw [String.data_append, joinNl_append]
      have hh : ("** MY NODES\n*Node\n" : String).data
          = joinNl ["** MY NODES".data, "*Node".data] := by decide
      rw [hh]
    have hnl : ∀ l ∈ (["** MY NODES".data, "*Node".data] ++
        (List.range query.length).map
          (fun j => (recordStr (first + 0 + j) (lookupD m (query.getD j 0))).data)),
        ∀ c ∈ l, c ≠ '\n' := by
      intro l hl
      rcases List.mem_append.mp hl with h | h
      · simp only [List.mem_cons, List.not_mem_nil, or_false] at h
        rcases h with h | h
        · subst h; exact lit_nlFree _ (by decide)
        · subst h; exact lit_nlFree _ (by decide)
      · rcases List.mem_map.mp h with ⟨j, _, hj⟩
        subst hj
        exact recordStr_ne_nl _ _
    have hmap : (List.range query.length).map
        (String.mk ∘ fun j => (recordStr (first + 0 + j) (lookupD m (query.getD j 0))).data)
        = (List.range query.length).map
          (fun j => recordStr (first + j) (lookupD m (query.getD j 0))) := by
      apply List.map_congr_left
      intro j _
      show String.mk (recordStr (first + 0 + j) (lookupD m (query.getD j 0))).data
        = recordStr (first + j) (lookupD m (query.getD j 0))
      rw [hadd j]
    rw [linesOf_of_data _ _ hdata hnl]
    simp only [List.map_append, List.map_cons, List.map_nil, List.map_map]
    rw [hmap]
    rfl
  refine ⟨"** MY NODES\n*Node\n" ++ String.mk (joinNl ((List.range query.length).map
      (fun j => (recordStr (first + 0 + j) (lookupD m (query.getD j 0))).data))),
    (List.range query.length).map (fun j => first + 0 + j), ?_, ?_, hlines, ?_⟩
  · simp only [gen_nodes, hm, hloop]
  · apply List.map_congr_left
    intro j _
    exact hadd j
  · intro j hj
    rw [hlines]
    have h2 : 2 + j = j + 1 + 1 := by omega
    rw [h2, List.getElem?_cons_succ, List.getElem?_cons_succ, List.getElem?_map,
      List.getElem?_range hj]
    rfl

/-- C1 witness: a table with node 42 at (1.0, 2.0, 3.0) and query [42]
with first identifier 100. -/
theorem gen_nodes_sequential_ids_witness :
    ∃ s ids, gen_nodes 100 [42] "*Node\n42, 1.0, 2.0, 3.0\n** end\n" = some (s, ids) ∧
      ids = (List.range ([42] : List Nat).length).map (fun j => 100 + j) ∧
      linesOf s = "** MY NODES" :: "*Node" ::
        (List.range ([42] : List Nat).length).map
          (fun j => recordStr (100 + j) (lookupD [("42", ⟨.finite 1, .finite 2, .finite 3⟩)] ([42].getD j 0))) ∧
      ∀ j, j < ([42] : List Nat).length →
        (linesOf s)[2 + j]? =
          some (recordStr (100 + j) (lookupD [("42", ⟨.finite 1, .finite 2, .finite 3⟩)] ([42].getD j 0))) :=
  gen_nodes_sequential_ids 100 [42] "*Node\n42, 1.0, 2.0, 3.0\n** end\n"
    [("42", ⟨.finite 1, .finite 2, .finite 3⟩)] (by decide) (by decide)

/-- C2: when a second gen_nodes call starts at the first call's starting
identifier offset by the number of identifiers the first call returned,
the two returned identifier lists are disjoint. -/
theorem gen_nodes_second_call_disjoint (N : Nat) (query : List Nat) (text : String)
    (s1 s2 : String) (ids1 ids2 : List Nat)
    (h1 : gen_nodes N query text = some (s1, ids1))
    (h2 : gen_nodes (N + ids1.length) query text = some (s2, ids2)) :
    ids1.Disjoint ids2 := by
  rcases hm : get_nodes_map text with _ | m
  · simp only [gen_nodes, hm] at h1
    exact Option.noConfusion h1
  rcases hg1 : genLoop m N 0 query with _ | si1
  · simp only [gen_nodes, hm, hg1] at h1
    exact Option.noConfusion h1
  rcases hg2 : genLoop m (N + ids1.length) 0 query with _ | si2
  · simp only [gen_nodes, hm, hg2] at h2
    exact Option.noConfusion h2
  simp only [gen_nodes, hm, hg1, Option.some_inj] at h1
  simp only [gen_nodes, hm, hg2, Option.some_inj] at h2
  have hid1 : si1.2 = ids1 := congrArg Prod.snd h1
  have hid2 : si2.2 = ids2 := congrArg Prod.snd h2
  have hr1 : ids1 = (List.range query.length).map (fun j => N + 0 + j) := by
    rw [← hid1]; exact genLoop_ids m query N 0 si1.1 si1.2 (by rw [← hg1])
  have hr2 : ids2 = (List.range query.length).map (fun j => N + ids1.length + 0 + j) := by
    rw [← hid2]
    exact genLoop_ids m query (N + ids1.length) 0 si2.1 si2.2 (by rw [← hg2])
  have hlen : ids1.length = query.length := by rw [hr1]; simp
  intro a ha1 ha2
  rw [hr1] at ha1
  rw [hr2, hlen] at ha2
  rcases List.mem_map.mp ha1 with ⟨j1, hj1, he1⟩
  rcases List.mem_map.mp ha2 with ⟨j2, hj2, he2⟩
  rw [List.mem_range] at hj1 hj2
  omega

/-- C2 witness: two calls on the same one-node query; the first returns
[100], the second starts at 101 and returns [101]. -/
theorem gen_nodes_second_call_disjoint_witness : ([100] : List Nat).Disjoint [101] :=
  gen_nodes_second_call_disjoint 100 [42] "*Node\n42, 1.0, 2.0, 3.0\n** end\n"
    "** MY NODES\n*Node\n100, 1.0, 2.0, 3.0\n" "** MY NODES\n*Node\n101, 1.0, 2.0, 3.0\n"
    [100] [101] (by decide) (by decide)
/-- C3: for the i-th positional triple (n, b, mv) of the three input
lists, the MPC output contains the line 3 immediately followed by the
line "n, 3, -1, b, 3, 1, mv, 3, 1": they are lines 4i+2 and 4i+3 of the
output. -/
theorem MPC_emits_dof3_equation (ns bs ms : List Nat) (i : Nat)
    (hi : i < (ns.zip (bs.zip ms)).length) :
    (linesOf (MPC ns bs ms))[4 * i + 2]? = some "3" ∧
    (linesOf (MPC ns bs ms))[4 * i + 3]? =
      some (eqLineStr (ns.getD i 0) (bs.getD i 0) (ms.getD i 0)) := by
  have hi1 : i < ns.length := by
    rw [List.length_zip] at hi
    exact lt_of_lt_of_le hi inf_le_left
  have hibm : i < (bs.zip ms).length := by
    rw [List.length_zip] at hi
    exact lt_of_lt_of_le hi inf_le_right
  have hi2 : i < bs.length := by
    rw [List.length_zip] at hibm
    exact lt_of_lt_of_le hibm inf_le_left
  have hi3 : i < ms.length := by
    rw [List.length_zip] at hibm
    exact lt_of_lt_of_le hibm inf_le_right
  have hlen : ∀ b ∈ (ns.zip (bs.zip ms)).map
      (fun t => ["** MY EQUATIONS", "*EQUATION", "3", eqLineStr t.1 t.2.1 t.2.2]),
      b.length = 4 := by
    intro b hb
    rcases List.mem_map.mp hb with ⟨t, _, hbt⟩
    rw [← hbt]
    rfl
  have hget := List.getElem?_eq_getElem hi
  have hn : ns.getD i 0 = ns[i] := by
    rw [List.getD_eq_getElem?_getD, List.getElem?_eq_getElem hi1]
    rfl
  have hbg : bs.getD i 0 = bs[i] := by
    rw [List.getD_eq_getElem?_getD, List.getElem?_eq_getElem hi2]
    rfl
  have hmg : ms.getD i 0 = ms[i] := by
    rw [List.getD_eq_getElem?_getD, List.getElem?_eq_getElem hi3]
    rfl
  rw [MPC_linesOf]
  constructor
  · rw [flatten_blocks4_getElem _ hlen i 2 (by omega), List.getElem?_map, hget]
    rfl
  · rw [flatten_blocks4_getElem _ hlen i 3 (by omega), List.getElem?_map, hget]
    simp only [Option.map_some', Option.some_bind]
    rw [List.getElem_zip, List.getElem_zip]
    simp only [List.getElem?_cons_succ, List.getElem?_cons_zero]
    rw [hn, hbg, hmg]

/-- C3 witness: the triple (1, 2, 3) at position 0. -/
theorem MPC_emits_dof3_equation_witness :
    (linesOf (MPC [1] [2] [3]))[4 * 0 + 2]? = some "3" ∧
    (linesOf (MPC [1] [2] [3]))[4 * 0 + 3]? =
      some (eqLineStr ([1].getD 0 0) ([2].getD 0 0) ([3].getD 0 0)) :=
  MPC_emits_dof3_equation [1] [2] [3] 0 (by decide)

/-- C4 counterexample: two well-formed record lines sharing identifier 1
sit between the marker and the terminator, yet the returned table has a
single entry (the dict assignment overwrites), not one entry per record
line, and the first record's coordinates are lost. -/
theorem get_nodes_map_duplicate_id_counterexample :
    get_nodes_map "*Node\n1, 0.0, 0.0, 0.0\n1, 1.0, 0.0, 0.0\n** end\n"
        = some [("1", ⟨.finite 1, .finite 0, .finite 0⟩)] ∧
      (get_nodes_map "*Node\n1, 0.0, 0.0, 0.0\n1, 1.0, 0.0, 0.0\n** end\n").map
          List.length ≠ some 2 := by
  decide

/-- C4 amended: when the record identifiers are pairwise distinct, the
extraction returns exactly one entry per record line between the marker
and the terminator, keyed by the record's identifier, in order, with
the coordinates parsed from that record. -/
theorem get_nodes_map_parses_section (text : String) (pre : List (List Char))
    (marker : List Char) (recs : List (List Char)) (term : List Char)
    (rest : List (List Char)) (rows : List (String × Point))
    (hl : linesOfL text.data = pre ++ (marker :: (recs ++ (term :: rest))))
    (hpre : ∀ l ∈ pre, infixOfL starNode (trimL l) = false)
    (hmark : infixOfL starNode (trimL marker) = true)
    (hstar : ∀ l ∈ recs, infixOfL starStar (trimL l) = false)
    (hterm : infixOfL starStar (trimL term) = true)
    (hparse : parseAll recs = some rows)
    (hnodup : (rows.map Prod.fst).Nodup) :
    get_nodes_map text = some rows ∧ rows.length = recs.length := by
  constructor
  · unfold get_nodes_map
    rw [hl, scanForNode_skip pre _ hpre, scanForNode_marker _ _ hmark]
    have := scanRecords_build recs rows [] term rest hparse hstar hterm
      (by intro k hk; simp) hnodup
    rw [this]
    simp
  · exact parseAll_length recs rows hparse

/-- C4 amended witness: two records with distinct identifiers 1 and 5
give a two-entry table with the parsed coordinates. -/
theorem get_nodes_map_parses_section_witness :
    get_nodes_map "x\n*Node\n1, 1.0, 2.0, 3.0\n5, 0.5, -1.5, 2e1\n** end\n"
        = some [("1", ⟨.finite 1, .finite 2, .finite 3⟩), ("5", ⟨.finite (mkRat 1 2), .finite (mkRat (-3) 2), .finite 20⟩)] ∧
      ([("1", (⟨.finite 1, .finite 2, .finite 3⟩ : Point)), ("5", ⟨.finite (mkRat 1 2), .finite (mkRat (-3) 2), .finite 20⟩)] :
          List (String × Point)).length
        = (["1, 1.0, 2.0, 3.0".data, "5, 0.5, -1.5, 2e1".data] : List (List Char)).length :=
  get_nodes_map_parses_section "x\n*Node\n1, 1.0, 2.0, 3.0\n5, 0.5, -1.5, 2e1\n** end\n"
    [['x']] "*Node".data ["1, 1.0, 2.0, 3.0".data, "5, 0.5, -1.5, 2e1".data]
    "** end".data [] [("1", ⟨.finite 1, .finite 2, .finite 3⟩), ("5", ⟨.finite (mkRat 1 2), .finite (mkRat (-3) 2), .finite 20⟩)]
    (by decide) (by decide) (by decide) (by decide) (by decide) (by decide) (by decide)

/-- C5: if no line of the input contains the node-section marker, the
extraction returns the empty table and raises no error. -/
theorem get_nodes_map_no_marker_empty (text : String)
    (h : ∀ l ∈ linesOfL text.data, infixOfL starNode (trimL l) = false) :
    get_nodes_map text = some [] := by
  unfold get_nodes_map
  exact scanForNode_no_marker _ h

/-- C5 witness: a two-line text with no marker. -/
theorem get_nodes_map_no_marker_empty_witness :
    get_nodes_map "hello\nworld" = some [] :=
  get_nodes_map_no_marker_empty "hello\nworld" (by decide)

/-- C6: fix_base on [7, 8] emits exactly the record lines 7, 1, 3, 0 and
8, 1, 3, 0 (under the fixed two-line boundary header), and in general
one record per node restraining degrees of freedom 1 through 3 to 0. -/
theorem fix_base_records_spec :
    linesOf (fix_base [7, 8])
        = ["** Name: MY BOUNDARIES", "*BOUNDARY", "7, 1, 3, 0", "8, 1, 3, 0"] ∧
      ∀ ns : List Nat, linesOf (fix_base ns)
        = "** Name: MY BOUNDARIES" :: "*BOUNDARY"
            :: ns.map (fun id => toString id ++ ", 1, 3, 0") := by
  refine ⟨?_, fix_base_linesOf⟩
  rw [fix_base_linesOf]
  decide

/-- C7: constrain_dofs on [7, 8] emits exactly the record lines 7, 1, 2
and 8, 1, 2 (under the fixed two-line boundary header), and in general
one record per node restraining only degrees of freedom 1 and 2. -/
theorem constrain_dofs_records_spec :
    linesOf (constrain_dofs [7, 8])
        = ["** MY BOUNDARIES", "*BOUNDARY", "7, 1, 2", "8, 1, 2"] ∧
      ∀ ns : List Nat, linesOf (constrain_dofs ns)
        = "** MY BOUNDARIES" :: "*BOUNDARY" :: ns.map (fun id => toString id ++ ", 1, 2") := by
  refine ⟨?_, constrain_dofs_linesOf⟩
  rw [constrain_dofs_linesOf]
  decide

/-- C8: a line after the marker that is neither a comment line nor a
well-formed record makes the extraction fail with a parse error (none),
with no recovery. -/
theorem get_nodes_map_malformed_error (text : String) (pre : List (List Char))
    (marker : List Char) (mid : List (List Char)) (bad : List Char)
    (rest : List (List Char))
    (hl : linesOfL text.data = pre ++ (marker :: (mid ++ (bad :: rest))))
    (hpre : ∀ l ∈ pre, infixOfL starNode (trimL l) = false)
    (hmark : infixOfL starNode (trimL marker) = true)
    (hmid : ∀ l ∈ mid,
      infixOfL starStar (trimL l) = false ∧ (parseRecordL (trimL l)).isSome = true)
    (hbad1 : infixOfL starStar (trimL bad) = false)
    (hbad2 : parseRecordL (trimL bad) = none) :
    get_nodes_map text = none := by
  unfold get_nodes_map
  rw [hl, scanForNode_skip pre _ hpre, scanForNode_marker _ _ hmark]
  exact scanRecords_until_bad mid bad rest hmid hbad1 hbad2 []

/-- C8 witness: a malformed line after one good record aborts the scan. -/
theorem get_nodes_map_malformed_error_witness :
    get_nodes_map "*Node\n1, 1.0, 2.0, 3.0\noops\n** end\n" = none :=
  get_nodes_map_malformed_error "*Node\n1, 1.0, 2.0, 3.0\noops\n** end\n"
    [] "*Node".data ["1, 1.0, 2.0, 3.0".data] "oops".data ["** end".data]
    (by decide) (by decide) (by decide) (by decide) (by decide) (by decide)

/-- C9: a query node whose identifier has no entry in the extracted
table makes gen_nodes fail with the propagated lookup error (none). -/
theorem gen_nodes_missing_query_error (first : Nat) (query : List Nat) (text : String)
    (m : NodesMap) (q : Nat) (hm : get_nodes_map text = some m) (hq : q ∈ query)
    (hmiss : dictFind? m (toString q) = none) :
    gen_nodes first query text = none := by
  simp only [gen_nodes, hm, genLoop_missing m query q hq hmiss first 0]

/-- C9 witness: the table has node 42 only; querying node 7 fails. -/
theorem gen_nodes_missing_query_error_witness :
    gen_nodes 100 [7] "*Node\n42, 1.0, 2.0, 3.0\n** end\n" = none :=
  gen_nodes_missing_query_error 100 [7] "*Node\n42, 1.0, 2.0, 3.0\n** end\n"
    [("42", ⟨.finite 1, .finite 2, .finite 3⟩)] 7 (by decide) (by decide) (by decide)

/-- C10: MPC never fails on unequal list lengths: it emits exactly
min(len nodes, len base, len movable) four-line equation blocks, one per
positional triple of the zipped lists, ignoring surplus entries. -/
theorem MPC_zip_min_records (ns bs ms : List Nat) :
    linesOf (MPC ns bs ms)
        = ((ns.zip (bs.zip ms)).map
            (fun t => ["** MY EQUATIONS", "*EQUATION", "3", eqLineStr t.1 t.2.1 t.2.2])).flatten ∧
      (ns.zip (bs.zip ms)).length = min ns.length (min bs.length ms.length) ∧
      (linesOf (MPC ns bs ms)).length = 4 * min ns.length (min bs.length ms.length) := by
  have hzl : (ns.zip (bs.zip ms)).length = min ns.length (min bs.length ms.length) := by
    rw [List.length_zip, List.length_zip]
  refine ⟨MPC_linesOf ns bs ms, hzl, ?_⟩
  rw [MPC_linesOf, List.length_flatten, List.map_map]
  have hconst : (List.map (List.length ∘ fun t : Nat × (Nat × Nat) =>
      ["** MY EQUATIONS", "*EQUATION", "3", eqLineStr t.1 t.2.1 t.2.2]) (ns.zip (bs.zip ms)))
      = List.map (fun x => 4) (ns.zip (bs.zip ms)) := rfl
  have hsum : ∀ ts : List (Nat × (Nat × Nat)),
      (List.map (fun x => 4) ts).sum = 4 * ts.length := by
    intro ts
    induction ts with
    | nil => rfl
    | cons t ts ih =>
      simp only [List.map_cons, List.sum_cons, List.length_cons, ih]
      omega
  rw [hconst, hsum, hzl]

end FittingEqs
